import Mathlib

/-!
# Convertify — shallow embedding of the Conversion Orchestration Engine

This file embeds the core of the Convertify application
(`src-tauri/src/convert.rs`, `src-tauri/src/logger.rs`,
`src-tauri/src/presets.rs`) into Lean 4 and proves properties of the
embedded definitions.

Modelling conventions:
* Rust `f64` values that the claims exercise only on exact decimal
  literals are modelled as `ℚ`; the decimal subset of Rust's float
  grammar (sign, digits, optional fractional part) is modelled by
  `parseF64` (exponent, `inf` and `nan` forms are outside the subset the
  program's inputs use and are treated as unparsable).
* The ambient filesystem is an explicit predicate `String → Bool`
  (path existence), the ambient clock an explicit `Nat → String`
  timestamp source; effectful Rust functions take these as arguments.
* `Option`/`Result` returning Rust code becomes `Option`/`Except`.
-/

namespace Convertify

/-! ## Rust string splitting and float parsing (decimal subset) -/

/-- Model of Rust's `str::split(sep)` on character lists: splitting the
empty string yields one empty part, a separator at either end yields an
empty part at that end. -/
def splitOnChar (sep : Char) : List Char → List (List Char)
  | [] => [[]]
  | c :: rest =>
    if c = sep then [] :: splitOnChar sep rest
    else
      match splitOnChar sep rest with
      | t :: ts => (c :: t) :: ts
      | [] => [[c]]

/-- Numeric value of a digit string (`foldl` over base 10). -/
def digitsVal (cs : List Char) : Nat :=
  cs.foldl (fun a c => 10 * a + (c.toNat - 48)) 0

/-- Model of `str::parse::<f64>()` on its decimal-literal subset:
optional sign, then digits with at most one decimal point and at least
one digit overall.  Values are exact rationals. -/
def parseF64Chars (cs₀ : List Char) : Option ℚ :=
  let (sign, cs) : ℚ × List Char :=
    match cs₀ with
    | '-' :: rest => (-1, rest)
    | '+' :: rest => (1, rest)
    | cs => (1, cs)
  match splitOnChar '.' cs with
  | [intPart] =>
    if intPart ≠ [] ∧ intPart.all Char.isDigit then
      some (sign * digitsVal intPart)
    else none
  | [intPart, fracPart] =>
    if (intPart ≠ [] ∨ fracPart ≠ []) ∧ intPart.all Char.isDigit ∧
        fracPart.all Char.isDigit then
      some (sign * ((digitsVal intPart : ℚ) +
        (digitsVal fracPart : ℚ) / (10 : ℚ) ^ fracPart.length))
    else none
  | _ => none

/-- Runs `parseF64Chars` on a `String`. -/
def parseF64 (s : String) : Option ℚ :=
  parseF64Chars s.data

/-! ## `parse_time_str` (convert.rs lines 176-186) -/

/-- Embeds `parse_time_str`: split on `:`; with exactly three parts,
parse each part (an unparsable part defaults to `0.0` via
`unwrap_or(0.0)`) and combine as `h*3600 + m*60 + s`; otherwise `0.0`. -/
def parseTimeStr (time : String) : ℚ :=
  match splitOnChar ':' time.data with
  | [h, m, s] =>
    (parseF64Chars h).getD 0 * 3600 + (parseF64Chars m).getD 0 * 60 +
      (parseF64Chars s).getD 0
  | _ => 0

/-! ## `parse_extra_args` (convert.rs lines 189-221) -/

/-- One step of the `parse_extra_args` character loop: state is the
accumulated token list `args`, the current token `current`, the
`inQuotes` flag and the active `quoteChar`, matching the four `match`
arms of the Rust loop in order. -/
def parseExtraArgsLoop (args : List String) (current : String)
    (inQuotes : Bool) (quoteChar : Char) : List Char → List String
  | [] => if current.isEmpty then args else args ++ [current]
  | c :: rest =>
    if (c = '"' ∨ c = '\'') ∧ ¬inQuotes then
      parseExtraArgsLoop args current true c rest
    else if c = quoteChar ∧ inQuotes then
      parseExtraArgsLoop args current false quoteChar rest
    else if c = ' ' ∧ ¬inQuotes then
      if current.isEmpty then parseExtraArgsLoop args current inQuotes quoteChar rest
      else parseExtraArgsLoop (args ++ [current]) "" inQuotes quoteChar rest
    else
      parseExtraArgsLoop args (current.push c) inQuotes quoteChar rest

/-- Embeds `parse_extra_args`: whitespace splitting with quote-aware
grouping; the initial `quote_char` is a space, `in_quotes` false. -/
def parseExtraArgs (extra : String) : List String :=
  parseExtraArgsLoop [] "" false ' ' extra.data

/-! ## Preset catalog (presets.rs) -/

/-- Preset category (`PresetCategory`). -/
inductive PresetCategory where
  | video
  | audio
  | image
deriving DecidableEq, Repr

/-- A preset from the static catalog (`Preset`). -/
structure Preset where
  id : String
  name : String
  category : PresetCategory
  extension : String
  format : Option String
  videoCodec : Option String
  audioCodec : Option String
  extraArgs : List String
deriving DecidableEq, Repr

/-- Embeds `Preset::build_args`: format flag, video codec flag, audio
codec flag, then the preset's extra arguments, in that fixed order. -/
def Preset.buildArgs (p : Preset) : List String :=
  (match p.format with
   | some f => ["-f", f]
   | none => []) ++
  (match p.videoCodec with
   | some v => ["-c:v", v]
   | none => []) ++
  (match p.audioCodec with
   | some a => ["-c:a", a]
   | none => []) ++
  p.extraArgs

/-- Embeds `get_all_presets`: the full static catalog, in source order. -/
def getAllPresets : List Preset :=
  [ { id := "mp4_h264", name := "MP4 (H.264)", category := .video,
      extension := "mp4", format := some "mp4",
      videoCodec := some "libx264", audioCodec := some "aac",
      extraArgs := ["-preset", "medium", "-crf", "23"] },
    { id := "mp4_h265", name := "MP4 (H.265/HEVC)", category := .video,
      extension := "mp4", format := some "mp4",
      videoCodec := some "libx265", audioCodec := some "aac",
      extraArgs := ["-preset", "medium", "-crf", "28"] },
    { id := "webm_vp9", name := "WebM (VP9)", category := .video,
      extension := "webm", format := some "webm",
      videoCodec := some "libvpx-vp9", audioCodec := some "libopus",
      extraArgs := ["-crf", "30", "-b:v", "0"] },
    { id := "avi", name := "AVI", category := .video,
      extension := "avi", format := some "avi",
      videoCodec := some "mpeg4", audioCodec := some "mp3",
      extraArgs := ["-q:v", "5"] },
    { id := "mkv", name := "MKV (H.264)", category := .video,
      extension := "mkv", format := some "matroska",
      videoCodec := some "libx264", audioCodec := some "aac",
      extraArgs := ["-preset", "medium", "-crf", "23"] },
    { id := "mov", name := "MOV (ProRes)", category := .video,
      extension := "mov", format := some "mov",
      videoCodec := some "prores_ks", audioCodec := some "pcm_s16le",
      extraArgs := ["-profile:v", "3"] },
    { id := "gif", name := "GIF (Animated)", category := .video,
      extension := "gif", format := some "gif",
      videoCodec := none, audioCodec := none,
      extraArgs := ["-vf",
        "fps=15,scale=480:-1:flags=lanczos,split[s0][s1];[s0]palettegen[p];[s1][p]paletteuse"] },
    { id := "mp3", name := "MP3", category := .audio,
      extension := "mp3", format := some "mp3",
      videoCodec := none, audioCodec := some "libmp3lame",
      extraArgs := ["-q:a", "2", "-vn"] },
    { id := "aac", name := "AAC (M4A)", category := .audio,
      extension := "m4a", format := some "ipod",
      videoCodec := none, audioCodec := some "aac",
      extraArgs := ["-b:a", "192k", "-vn"] },
    { id := "flac", name := "FLAC (Lossless)", category := .audio,
      extension := "flac", format := some "flac",
      videoCodec := none, audioCodec := some "flac",
      extraArgs := ["-vn"] },
    { id := "opus", name := "Opus", category := .audio,
      extension := "opus", format := some "opus",
      videoCodec := none, audioCodec := some "libopus",
      extraArgs := ["-b:a", "128k", "-vn"] },
    { id := "wav", name := "WAV (PCM)", category := .audio,
      extension := "wav", format := some "wav",
      videoCodec := none, audioCodec := some "pcm_s16le",
      extraArgs := ["-vn"] },
    { id := "png", name := "PNG", category := .image,
      extension := "png", format := some "image2",
      videoCodec := some "png", audioCodec := none,
      extraArgs := ["-frames:v", "1", "-an"] },
    { id := "jpg", name := "JPEG", category := .image,
      extension := "jpg", format := some "image2",
      videoCodec := some "mjpeg", audioCodec := none,
      extraArgs := ["-frames:v", "1", "-q:v", "2", "-an"] },
    { id := "webp", name := "WebP", category := .image,
      extension := "webp", format := some "webp",
      videoCodec := some "libwebp", audioCodec := none,
      extraArgs := ["-frames:v", "1", "-quality", "80", "-an"] } ]

/-- Embeds `find_preset`: first catalog entry with the given id. -/
def findPreset (id : String) : Option Preset :=
  getAllPresets.find? (fun p => p.id = id)

/-! ## Conversion options and errors (convert.rs lines 10-75) -/

/-- Embeds `ConvertError`. -/
inductive ConvertError where
  | ffmpegNotFound
  | inputNotFound (path : String)
  | presetNotFound (id : String)
  | conversionFailed (msg : String)
  | cancelled
  | invalidOutputPath (msg : String)
deriving DecidableEq, Repr

/-- Embeds `StreamSelection`. -/
structure StreamSelection where
  includeVideo : Bool
  includeAudio : Bool
  includeSubtitles : Bool
deriving DecidableEq, Repr

/-- Embeds `StreamSelection::default()`: all streams included. -/
def StreamSelection.default : StreamSelection :=
  { includeVideo := true, includeAudio := true, includeSubtitles := true }

/-- Embeds `AdvancedOptions`. -/
structure AdvancedOptions where
  format : Option String
  videoCodec : Option String
  audioCodec : Option String
  extraArgs : Option String
deriving DecidableEq, Repr

/-- Embeds `ConvertOptions`. -/
structure ConvertOptions where
  inputPath : String
  outputPath : String
  presetId : Option String
  advanced : Option AdvancedOptions
  streamSelection : Option StreamSelection
deriving DecidableEq, Repr

/-! ## `build_ffmpeg_args` (convert.rs lines 101-173) -/

/-- The codec-override removal in `build_ffmpeg_args`: find the first
position of `flag`, remove the element there and, if one follows, the
element after it; no occurrence leaves the list unchanged. -/
def removeFirstPair (flag : String) : List String → List String
  | [] => []
  | a :: rest => if a = flag then rest.tail else a :: removeFirstPair flag rest

/-- The advanced-options block of `build_ffmpeg_args` (lines 132-164):
format appended, video codec and audio codec each replacing a previously
emitted flag+value pair, then the tokenized extra-argument string. -/
def applyAdvanced (adv : AdvancedOptions) (args₀ : List String) : List String :=
  let args₁ := match adv.format with
    | some f => args₀ ++ ["-f", f]
    | none => args₀
  let args₂ := match adv.videoCodec with
    | some v => removeFirstPair "-c:v" args₁ ++ ["-c:v", v]
    | none => args₁
  let args₃ := match adv.audioCodec with
    | some a => removeFirstPair "-c:a" args₂ ++ ["-c:a", a]
    | none => args₂
  match adv.extraArgs with
  | some e => args₃ ++ parseExtraArgs e
  | none => args₃

/-- The stream-exclusion flags of `build_ffmpeg_args` (lines 109-120):
`-vn`/`-an`/`-sn` for each excluded stream kind, in that order. -/
def streamFlags (sel : StreamSelection) : List String :=
  (if sel.includeVideo then [] else ["-vn"]) ++
  (if sel.includeAudio then [] else ["-an"]) ++
  (if sel.includeSubtitles then [] else ["-sn"])

/-- The tail of `build_ffmpeg_args` after the preset stage: advanced
overrides (if any), then `-y` and the output path (lines 131-172). -/
def afterPresetArgs (options : ConvertOptions) (args₁ : List String) : List String :=
  (match options.advanced with
   | some adv => applyAdvanced adv args₁
   | none => args₁) ++ ["-y", options.outputPath]

/-- Embeds `build_ffmpeg_args`: `-i input`, stream-exclusion flags,
preset arguments (failing with `presetNotFound` on an unknown id),
advanced overrides, then `-y` and the output path. -/
def buildFfmpegArgs (options : ConvertOptions) : Except ConvertError (List String) :=
  let args₀ := ["-i", options.inputPath] ++
    streamFlags (options.streamSelection.getD StreamSelection.default)
  match options.presetId with
  | some pid =>
    match findPreset pid with
    | some p => .ok (afterPresetArgs options (args₀ ++ p.buildArgs))
    | none => .error (.presetNotFound pid)
  | none => .ok (afterPresetArgs options args₀)

/-! ## Path helpers (Rust `std::path::Path` on Unix-style strings)

Only the subset of `Path` behaviour the program exercises is modelled:
`parent`, `file_stem` and `join` on plain `/`-separated path strings. -/

/-- Index of the last occurrence of `c`, if any. -/
def lastIdxOf (c : Char) (cs : List Char) : Option Nat :=
  match cs.reverse.findIdx? (· = c) with
  | some j => some (cs.length - 1 - j)
  | none => none

/-- Model of `Path::parent` rendered back to a string: `None` for `""`
and `"/"`; a path without `/` has parent `""`; otherwise everything
before the last `/` (the root `"/"` when that prefix is empty). -/
def parentDir (p : String) : Option String :=
  if p = "" ∨ p = "/" then none
  else
    match lastIdxOf '/' p.data with
    | none => some ""
    | some i =>
      let pre := p.data.take i
      some (if pre = [] then "/" else ⟨pre⟩)

/-- The component after the last `/` (model of `Path::file_name` for
paths not ending in `/`). -/
def fileNamePart (p : String) : List Char :=
  match lastIdxOf '/' p.data with
  | none => p.data
  | some i => p.data.drop (i + 1)

/-- Model of `Path::file_stem().unwrap_or_default()`: the file name up
to its last `.`, the whole name when there is no `.` or when the only
`.` is a leading one. -/
def fileStem (p : String) : String :=
  let name := fileNamePart p
  match lastIdxOf '.' name with
  | none => ⟨name⟩
  | some 0 => ⟨name⟩
  | some i => ⟨name.take i⟩

/-- Model of `Path::join` for a relative file name: an empty base is
dropped (so `Path::new("").join(n) = n`), otherwise separated by `/`. -/
def pathJoin (base name : String) : String :=
  if base = "" then name else base ++ "/" ++ name

/-! ## `format_to_extension` and `generate_output_path`
(convert.rs lines 458-524) -/

/-- Embeds `format_to_extension`: the literal mapping table; an unknown
format falls through to itself. -/
def formatToExtension (format : String) : String :=
  match format with
  | "mp4" => "mp4"
  | "mov" => "mov"
  | "matroska" | "mkv" => "mkv"
  | "webm" => "webm"
  | "avi" => "avi"
  | "flv" => "flv"
  | "wmv" => "wmv"
  | "mpeg" => "mpeg"
  | "mpegts" => "ts"
  | "3gp" => "3gp"
  | "mp3" => "mp3"
  | "flac" => "flac"
  | "wav" => "wav"
  | "ogg" => "ogg"
  | "opus" => "opus"
  | "aac" => "aac"
  | "m4a" | "ipod" => "m4a"
  | "gif" => "gif"
  | "image2" | "png" => "png"
  | "mjpeg" | "jpeg" | "jpg" => "jpg"
  | "webp" => "webp"
  | "rawvideo" => "raw"
  | "null" => "null"
  | other => other

/-- The extension selection of `generate_output_path` (lines 465-473):
with a preset id, the found preset's extension or `"mp4"` when the id is
unknown; otherwise the format mapping; otherwise `"mp4"`. -/
def outputExtension (presetId : Option String) (format : Option String) : String :=
  match presetId with
  | some pid => ((findPreset pid).map (·.extension)).getD "mp4"
  | none =>
    match format with
    | some fmt => formatToExtension fmt
    | none => "mp4"

/-- The collision-probing loop of `generate_output_path` (lines
482-493): starting at `counter`, return the first non-existent numbered
candidate, or the current candidate once the next counter would exceed
9999.  The Rust `loop` is bounded by that ceiling; `fuel` makes the
recursion structural and is calibrated so that the ceiling test always
fires first (the caller passes `fuel = 9998`, `counter = 2`). -/
def collisionLoop (fileExists : String → Bool) (mk : Nat → String) :
    Nat → Nat → String
  | 0, counter => mk counter
  | fuel + 1, counter =>
    let candidate := mk counter
    if ¬ fileExists candidate then candidate
    else if counter + 1 > 9999 then candidate
    else collisionLoop fileExists mk fuel (counter + 1)

/-- The numbered candidate `<stem>_Convertified_<n>.<ext>` in `parent`. -/
def numberedCandidate (parent stem extension : String) (n : Nat) : String :=
  pathJoin parent (stem ++ "_Convertified_" ++ toString n ++ "." ++ extension)

/-- Embeds `generate_output_path`: filesystem existence is the explicit
predicate `fileExists`.  Tries `<stem>_Convertified.<ext>` first, then
the numbered candidates from 2 up to the 9999 safety ceiling. -/
def generateOutputPath (fileExists : String → Bool) (inputPath : String)
    (presetId : Option String) (format : Option String) : String :=
  let stem := fileStem inputPath
  let parent := (parentDir inputPath).getD "."
  let extension := outputExtension presetId format
  let base := pathJoin parent (stem ++ "_Convertified." ++ extension)
  if ¬ fileExists base then base
  else collisionLoop fileExists (numberedCandidate parent stem extension) 9998 2

/-! ## Run log (logger.rs)

The ambient clock (`Local::now()`) is modelled by passing each
timestamp-producing call an explicit timestamp argument. -/

/-- Embeds `logger::LogLevel`. -/
inductive AppLogLevel where
  | info
  | warning
  | error
  | debug
deriving DecidableEq, Repr

/-- Embeds `LogEntry`. -/
structure LogEntry where
  timestamp : String
  level : AppLogLevel
  message : String
  context : Option String
deriving DecidableEq, Repr

/-- Embeds `ConversionLog`. -/
structure ConversionLog where
  id : String
  startedAt : String
  endedAt : Option String
  inputPath : String
  outputPath : String
  presetId : Option String
  advancedOptions : Option String
  ffmpegCommand : String
  success : Bool
  errorMessage : Option String
  entries : List LogEntry
deriving DecidableEq, Repr

/-- Embeds `ConversionLog::new`: id is the millisecond timestamp
rendered as text, `ended_at`/`error_message` empty, `success` false,
no entries. -/
def ConversionLog.new (inputPath outputPath : String)
    (presetId : Option String) (advancedOptions : Option String)
    (ffmpegCommand : String) (nowMillis : Nat) (nowFormatted : String) :
    ConversionLog :=
  { id := toString nowMillis
    startedAt := nowFormatted
    endedAt := none
    inputPath := inputPath
    outputPath := outputPath
    presetId := presetId
    advancedOptions := advancedOptions
    ffmpegCommand := ffmpegCommand
    success := false
    errorMessage := none
    entries := [] }

/-- Embeds `ConversionLog::add_entry`: unconditionally pushes a new
entry stamped with the current time; there is no sealed-state guard. -/
def ConversionLog.addEntry (log : ConversionLog) (now : String)
    (level : AppLogLevel) (message : String) (context : Option String) :
    ConversionLog :=
  { log with entries := log.entries ++
      [{ timestamp := now, level := level, message := message, context := context }] }

/-- Embeds `ConversionLog::finish`: sets `ended_at` to the current time
and overwrites `success` and `error_message` with its arguments. -/
def ConversionLog.finish (log : ConversionLog) (now : String)
    (success : Bool) (errorMessage : Option String) : ConversionLog :=
  { log with endedAt := some now, success := success, errorMessage := errorMessage }

/-- A log is sealed once `finish` has set its end time. -/
def ConversionLog.sealed (log : ConversionLog) : Prop :=
  log.endedAt ≠ none

instance (log : ConversionLog) : Decidable log.sealed := by
  unfold ConversionLog.sealed
  infer_instance

/-- The severity tag used by the file rendering. -/
def levelTag : AppLogLevel → String
  | .info => "INFO"
  | .warning => "WARN"
  | .error => "ERROR"
  | .debug => "DEBUG"

/-- Embeds `format_log_for_file`: the fixed human-readable block for
one conversion (header lines, then one line per entry). -/
def formatLogForFile (log : ConversionLog) : String :=
  "=== Conversion " ++ log.id ++ " ===\n" ++
  "Started: " ++ log.startedAt ++ "\n" ++
  (match log.endedAt with
   | some ended => "Ended: " ++ ended ++ "\n"
   | none => "") ++
  "Input: " ++ log.inputPath ++ "\n" ++
  "Output: " ++ log.outputPath ++ "\n" ++
  (match log.presetId with
   | some preset => "Preset: " ++ preset ++ "\n"
   | none => "") ++
  (match log.advancedOptions with
   | some advanced => "Advanced: " ++ advanced ++ "\n"
   | none => "") ++
  "Command: " ++ log.ffmpegCommand ++ "\n" ++
  "Success: " ++ (if log.success then "true" else "false") ++ "\n" ++
  (match log.errorMessage with
   | some err => "Error: " ++ err ++ "\n"
   | none => "") ++
  "\n--- Log Entries ---\n" ++
  String.join (log.entries.map (fun entry =>
    "[" ++ entry.timestamp ++ "] [" ++ levelTag entry.level ++ "] " ++
    entry.message ++
    (match entry.context with
     | some ctx => " (" ++ ctx ++ ")"
     | none => "") ++ "\n")) ++
  "\n\n"

/-- Embeds `LogStore`.  `fileContents` models the durable
`conversion_log.txt` accumulated by this store: `some` exactly when a
log directory is configured (appends are assumed to succeed; the code
ignores write errors). -/
structure LogStore where
  logs : List ConversionLog
  maxLogs : Nat
  fileContents : Option String
deriving DecidableEq, Repr

/-- Embeds `LogStore::new` for a fresh store: empty in-memory sequence
and, when a directory is configured, an empty durable file. -/
def LogStore.new (maxLogs : Nat) (dirConfigured : Bool) : LogStore :=
  { logs := []
    maxLogs := maxLogs
    fileContents := if dirConfigured then some "" else none }

/-- The `while logs.len() > max_logs { logs.remove(0) }` trimming:
drop elements from the front until at most `max` remain. -/
def trimFront (max : Nat) (logs : List ConversionLog) : List ConversionLog :=
  logs.drop (logs.length - max)

/-- Embeds `LogStore::add_log`: push, trim the front past capacity,
then append the rendered block to the durable file when configured. -/
def LogStore.addLog (store : LogStore) (log : ConversionLog) : LogStore :=
  { store with
    logs := trimFront store.maxLogs (store.logs ++ [log])
    fileContents := store.fileContents.map (· ++ formatLogForFile log) }

/-- Embeds `LogStore::get_logs`. -/
def LogStore.getLogs (store : LogStore) : List ConversionLog :=
  store.logs

/-- Embeds `LogStore::get_last_log`. -/
def LogStore.getLastLog (store : LogStore) : Option ConversionLog :=
  store.logs.getLast?

/-- Embeds `LogStore::clear_logs`. -/
def LogStore.clearLogs (store : LogStore) : LogStore :=
  { store with logs := [] }

/-! ## Progress events (convert.rs lines 60-67 and 337-412)

Numeric `f64` fields of the ffmpeg event stream are carried as exact
rationals; the display-string formatting of speed and bitrate
(`format!("{:.2}x", ..)`) is elided, the underlying option structure
(`None` exactly when the reported value is not positive) is kept. -/

/-- Embeds `ConvertProgress` (display formatting of `speed`/`bitrate`
elided, see above). -/
structure ConvertProgress where
  percent : ℚ
  timeSecs : ℚ
  speed : Option ℚ
  bitrate : Option ℚ
  sizeKb : Option Nat
deriving DecidableEq, Repr

/-- The ffmpeg-sidecar log levels matched in the event loop. -/
inductive FfLogLevel where
  | error
  | fatal
  | warning
  | info
  | other
deriving DecidableEq, Repr

/-- The ffmpeg-sidecar events the loop in `start_conversion`
distinguishes (payloads restricted to the fields the loop reads). -/
inductive FfmpegEvent where
  | progress (time : String) (speed : ℚ) (bitrateKbps : ℚ) (sizeKb : Nat)
  | log (level : FfLogLevel) (msg : String)
  | parsedVersion (version : String)
  | parsedConfiguration (config : String)
  | parsedInput (index : Nat) (duration : Option ℚ)
  | parsedOutput (index : Nat) (target : String)
  | parsedStreamMapping (mapping : String)
  | done
  | other
deriving DecidableEq, Repr

/-- The percent computation of the progress arm (lines 350-359):
`elapsed/duration*100` capped at 100 when a positive duration is known,
otherwise 0. -/
def percentOf (duration : Option ℚ) (time : String) : ℚ :=
  match duration with
  | some dur => if dur > 0 then min (parseTimeStr time / dur * 100) 100 else 0
  | none => 0

/-- The `ConvertProgress` value built for one progress event
(lines 350-367). -/
def convertProgressOf (duration : Option ℚ) (time : String)
    (speed bitrateKbps : ℚ) (sizeKb : Nat) : ConvertProgress :=
  { percent := percentOf duration time
    timeSecs := parseTimeStr time
    speed := if speed > 0 then some speed else none
    bitrate := if bitrateKbps > 0 then some bitrateKbps else none
    sizeKb := some sizeKb }

/-- The `convert-progress` notifications emitted while consuming the
event stream (lines 337-412): each turn first checks the cancellation
flag (modelled per turn index) and stops on cancellation; a progress
event emits exactly one notification; `Done` stops the loop; every
other event emits none. -/
def emittedProgress (cancelAt : Nat → Bool) (duration : Option ℚ) :
    Nat → List FfmpegEvent → List ConvertProgress
  | _, [] => []
  | turn, event :: rest =>
    if cancelAt turn then []
    else
      match event with
      | .progress time speed bitrate sizeKb =>
        convertProgressOf duration time speed bitrate sizeKb ::
          emittedProgress cancelAt duration (turn + 1) rest
      | .done => []
      | _ => emittedProgress cancelAt duration (turn + 1) rest

/-! ## Pre-spawn phase of `start_conversion` (convert.rs lines 231-322)

The phase up to (and excluding) the process spawn is deterministic
given the filesystem predicate and the clock; everything after the
validations depends on the external process and is outside this
embedding.  `PreResult.ready` marks exactly the state in which the code
goes on to spawn ffmpeg. -/

/-- The Rust `{:?}` rendering of an `Option<String>`. -/
def optionDebug : Option String → String
  | some s => "Some(\"" ++ s ++ "\")"
  | none => "None"

/-- The advanced-options summary string of `start_conversion`
(lines 246-251). -/
def advancedSummary (a : AdvancedOptions) : String :=
  "format=" ++ optionDebug a.format ++
  ", video_codec=" ++ optionDebug a.videoCodec ++
  ", audio_codec=" ++ optionDebug a.audioCodec ++
  ", extra_args=" ++ optionDebug a.extraArgs

/-- Joins argument lists with single spaces (`args.join(" ")`). -/
def joinSpaced : List String → String
  | [] => ""
  | [a] => a
  | a :: rest => a ++ " " ++ joinSpaced rest

/-- Outcome of the pre-spawn phase: either a validation failure, with
the store as updated before the error was returned, or readiness to
spawn with the built arguments and the open log. -/
inductive PreResult where
  | failed (err : ConvertError) (store : LogStore)
  | ready (args : List String) (log : ConversionLog) (store : LogStore)
deriving DecidableEq, Repr

/-- Embeds `start_conversion` up to the spawn (lines 241-281): build
the arguments (a builder error is returned before any log is created),
create and open the conversion log, validate that the input path exists
and that the output path's parent directory exists; each failed
validation appends an error entry, seals the log as failed and records
it in the store before returning the error.  `clock n` is the `n`-th
timestamp drawn from the ambient clock after the log id. -/
def startConversionPre (fileExists : String → Bool) (clock : Nat → String)
    (nowMillis : Nat) (options : ConvertOptions) (store : LogStore) :
    PreResult :=
  match buildFfmpegArgs options with
  | .error e => .failed e store
  | .ok args =>
    let ffmpegCommand := "ffmpeg " ++ joinSpaced args
    let advancedStr := options.advanced.map advancedSummary
    let log := ConversionLog.new options.inputPath options.outputPath
      options.presetId advancedStr ffmpegCommand nowMillis (clock 0)
    let log := log.addEntry (clock 1) .info "Starting conversion" none
    if ¬ fileExists options.inputPath then
      let log := log.addEntry (clock 2) .error "Input file not found"
        (some options.inputPath)
      let log := log.finish (clock 3) false (some "Input file not found")
      .failed (.inputNotFound options.inputPath) (store.addLog log)
    else
      match parentDir options.outputPath with
      | some parent =>
        if ¬ fileExists parent then
          let errMsg := "Output directory does not exist: " ++ parent
          let log := log.addEntry (clock 2) .error errMsg none
          let log := log.finish (clock 3) false (some errMsg)
          .failed (.invalidOutputPath errMsg) (store.addLog log)
        else
          .ready args log store
      | none => .ready args log store

/-! ## Concrete evaluations of the embedded functions -/

example : parseTimeStr "01:02:03.50" = 3723.5 := by
  simp +decide [parseTimeStr, parseF64Chars, splitOnChar, digitsVal]
  norm_num
example : parseTimeStr "12:34" = 0 := by decide
example : parseTimeStr "-1:00:00.0" = -3600 := by
  simp +decide [parseTimeStr, parseF64Chars, splitOnChar, digitsVal]

example : parseExtraArgs "-vf \"scale=640:-1\" -an" = ["-vf", "scale=640:-1", "-an"] := by
  decide

example : (findPreset "mp4_h264").map (·.extension) = some "mp4" := by decide
example : findPreset "nope" = none := by decide

example : parentDir "clip.mov" = some "" := by decide
example : parentDir "a/b/clip.mov" = some "a/b" := by decide
example : fileStem "a/b/clip.mov" = "clip" := by decide
example : pathJoin "" "clip_Convertified.mp4" = "clip_Convertified.mp4" := by decide

example :
    generateOutputPath (fun _ => false) "clip.mov" (some "mp4_h264") none =
      "clip_Convertified.mp4" := by decide
example :
    generateOutputPath (fun s => s = "clip_Convertified.mp4") "clip.mov"
      (some "mp4_h264") none = "clip_Convertified_2.mp4" := by decide

/-! ## Derived candidate names, segment views and sample inputs
used by the claim theorems -/

/-- The base candidate `<stem>_Convertified.<ext>` that
`generate_output_path` probes first. -/
def baseCandidate (input : String) (presetId format : Option String) : String :=
  pathJoin ((parentDir input).getD ".")
    (fileStem input ++ "_Convertified." ++ outputExtension presetId format)

/-- The numbered candidate `<stem>_Convertified_<n>.<ext>` that
`generate_output_path` probes from `n = 2` on. -/
def numCandidate (input : String) (presetId format : Option String) (n : Nat) : String :=
  numberedCandidate ((parentDir input).getD ".") (fileStem input)
    (outputExtension presetId format) n

/-- The format names the `format_to_extension` table maps explicitly. -/
def knownFormatNames : List String :=
  ["mp4", "mov", "matroska", "mkv", "webm", "avi", "flv", "wmv", "mpeg",
   "mpegts", "3gp", "mp3", "flac", "wav", "ogg", "opus", "aac", "m4a",
   "ipod", "gif", "image2", "png", "mjpeg", "jpeg", "jpg", "webp",
   "rawvideo", "null"]

/-- A conversion request whose input file is absent, used as witness input. -/
def missingInputOptions : ConvertOptions :=
  { inputPath := "in.mp4"
    outputPath := "out.mp4"
    presetId := none
    advanced := none
    streamSelection := none }

/-- Concatenation of the rendered file blocks of a list of logs, in
order; what the durable file accumulates. -/
def renderedBlocks : List ConversionLog → String
  | [] => ""
  | l :: ls => formatLogForFile l ++ renderedBlocks ls

/-- A sealed log used to exercise post-seal behaviour. -/
def sealedSampleLog : ConversionLog :=
  (ConversionLog.new "in.mp4" "out.mp4" none none "ffmpeg -i in.mp4 -y out.mp4"
    1700000000000 "2024-01-01 00:00:00").finish "2024-01-01 00:00:05" true none

/-- The two-element flag list an optional value contributes
(`["-f", f]`, `["-c:a", a]`, …), empty when absent. -/
def optFlagList (flag : String) (o : Option String) : List String :=
  match o with
  | some v => [flag, v]
  | none => []

/-- The extra tokens the advanced options contribute. -/
def extraAdvList (adv : AdvancedOptions) : List String :=
  match adv.extraArgs with
  | some e => parseExtraArgs e
  | none => []

/-- No catalog preset uses the literal codec flag tokens as a format
value, an audio-codec value, or an extra argument. -/
def presetFlagClean (p : Preset) : Prop :=
  p.format ≠ some "-c:v" ∧ p.format ≠ some "-c:a" ∧
  p.audioCodec ≠ some "-c:v" ∧ p.audioCodec ≠ some "-c:a" ∧
  "-c:v" ∉ p.extraArgs ∧ "-c:a" ∉ p.extraArgs

instance (p : Preset) : Decidable (presetFlagClean p) := by
  unfold presetFlagClean
  infer_instance

/-- The audio-codec stage of the advanced options, as a function of the
optional override. -/
def audioStage (audio : Option String) (l : List String) : List String :=
  match audio with
  | some a => removeFirstPair "-c:a" l ++ ["-c:a", a]
  | none => l

/-- Advanced options overriding the video codec, used as a C3 input. -/
def overrideAdvanced : AdvancedOptions :=
  { format := none
    videoCodec := some "libx265"
    audioCodec := none
    extraArgs := none }

/-- A conversion request whose input path is the literal flag token
`-c:v`, on which the override removal misfires. -/
def flagNamedInputOptions : ConvertOptions :=
  { inputPath := "-c:v"
    outputPath := "out.mp4"
    presetId := some "mp4_h264"
    advanced := some overrideAdvanced
    streamSelection := none }

/-- Well-behaved advanced options overriding the video codec. -/
def cleanOverrideOptions : ConvertOptions :=
  { inputPath := "in.mov"
    outputPath := "out.mp4"
    presetId := some "mp4_h264"
    advanced := some overrideAdvanced
    streamSelection := none }

/-! ## Shared helper lemmas -/

/-- Every token the tokenizer loop ever outputs is non-empty, given the
accumulated tokens are. -/
theorem parseExtraArgsLoop_ne_nil (cs : List Char) :
    ∀ args current inQ qc, (∀ t ∈ args, t ≠ "") →
      ∀ t, t ∈ parseExtraArgsLoop args current inQ qc cs → t ≠ "" := by
  induction cs with
  | nil =>
    intro args current inQ qc hargs t ht
    unfold parseExtraArgsLoop at ht
    by_cases hc : current.isEmpty
    · simp [hc] at ht
      exact hargs t ht
    · simp [hc] at ht
      rcases ht with h | h
      · exact hargs t h
      · subst h
        simpa [String.isEmpty_iff] using hc
  | cons c rest ih =>
    intro args current inQ qc hargs t ht
    unfold parseExtraArgsLoop at ht
    split_ifs at ht with h1 h2 h3 h4
    · exact ih args current true c hargs t ht
    · exact ih args current false qc hargs t ht
    · exact ih args current inQ qc hargs t ht
    · refine ih (args ++ [current]) "" inQ qc ?_ t ht
      intro u hu
      rcases List.mem_append.mp hu with h | h
      · exact hargs u h
      · simp at h
        subst h
        simpa [String.isEmpty_iff] using h4
    · exact ih args (current.push c) inQ qc hargs t ht

/-! ## Claim theorems -/

/-- C4: the extra-argument tokenizer splits by whitespace with
quote-aware grouping: a span enclosed in single or double quotes is one
token even if it contains whitespace, an unterminated quote consumes to
the end of the string, and the input `-vf "scale=640:-1" -an` tokenizes
to `["-vf", "scale=640:-1", "-an"]`. -/
theorem C4_extra_args_tokenization :
    parseExtraArgs "-vf \"scale=640:-1\" -an" = ["-vf", "scale=640:-1", "-an"] ∧
    parseExtraArgs "a \"b c\" d" = ["a", "b c", "d"] ∧
    parseExtraArgs "a 'b c' d" = ["a", "b c", "d"] ∧
    parseExtraArgs "\"a b" = ["a b"] ∧
    parseExtraArgs "'a b" = ["a b"] := by
  refine ⟨by decide, by decide, by decide, by decide, by decide⟩

/-- C5: `parse_time_str` parses `hours:minutes:seconds.fraction` text
into seconds, an unparsable component defaulting to zero; the input
`"01:02:03.50"` yields `3723.5`, and any input that does not split into
exactly three colon-separated parts yields `0`. -/
theorem C5_parse_time_str :
    parseTimeStr "01:02:03.50" = 3723.5 ∧
    parseTimeStr "aa:02:03" = 123 ∧
    ∀ s : String, (splitOnChar ':' s.data).length ≠ 3 → parseTimeStr s = 0 := by
  refine ⟨?_, ?_, ?_⟩
  · simp +decide [parseTimeStr, parseF64Chars, splitOnChar, digitsVal]
    norm_num
  · simp +decide [parseTimeStr, parseF64Chars, splitOnChar, digitsVal]
    norm_num
  · intro s hlen
    unfold parseTimeStr
    rcases h : splitOnChar ':' s.data with _ | ⟨a, _ | ⟨b, _ | ⟨c, _ | ⟨d, rest⟩⟩⟩⟩ <;>
      simp_all

/-- Witness for C5 at the concrete two-part input `"12:34"`. -/
theorem C5_parse_time_str_witness :
    (splitOnChar ':' "12:34".data).length ≠ 3 ∧ parseTimeStr "12:34" = 0 :=
  ⟨by decide, C5_parse_time_str.2.2 "12:34" (by decide)⟩

/-- C10: every token returned by the extra-argument tokenizer is
non-empty; an input of only spaces, or of only a pair of quotes, yields
the empty list. -/
theorem C10_tokens_nonempty :
    (∀ s : String, ∀ t ∈ parseExtraArgs s, t ≠ "") ∧
    parseExtraArgs "   " = [] ∧
    parseExtraArgs "\"\"" = [] ∧
    parseExtraArgs "''" = [] := by
  refine ⟨?_, by decide, by decide, by decide⟩
  intro s t ht
  exact parseExtraArgsLoop_ne_nil s.data [] "" false ' ' (by simp) t ht

/-- Witness for C10 at a concrete input with a token. -/
theorem C10_tokens_nonempty_witness :
    "-an" ∈ parseExtraArgs "-an" ∧ "-an" ≠ "" :=
  ⟨by decide, C10_tokens_nonempty.1 "-an" "-an" (by decide)⟩

/-- Every notification the event loop emits is built by
`convertProgressOf` from some progress event's payload. -/
theorem mem_emittedProgress (cancelAt : Nat → Bool) (duration : Option ℚ) :
    ∀ (events : List FfmpegEvent) (turn : Nat) (p : ConvertProgress),
      p ∈ emittedProgress cancelAt duration turn events →
      ∃ t s b z, p = convertProgressOf duration t s b z := by
  intro events
  induction events with
  | nil =>
    intro turn p hp
    simp [emittedProgress] at hp
  | cons e rest ih =>
    intro turn p hp
    unfold emittedProgress at hp
    by_cases hc : cancelAt turn
    · simp [hc] at hp
    · simp [hc] at hp
      cases e with
      | progress t s b z =>
        rcases List.mem_cons.mp hp with h | h
        · exact ⟨t, s, b, z, h⟩
        · exact ih (turn + 1) p h
      | done => simp at hp
      | log lvl msg => exact ih (turn + 1) p hp
      | parsedVersion v => exact ih (turn + 1) p hp
      | parsedConfiguration c => exact ih (turn + 1) p hp
      | parsedInput i d => exact ih (turn + 1) p hp
      | parsedOutput i t => exact ih (turn + 1) p hp
      | parsedStreamMapping m => exact ih (turn + 1) p hp
      | other => exact ih (turn + 1) p hp

/-- The percent computation never exceeds 100. -/
theorem percentOf_le_100 (duration : Option ℚ) (time : String) :
    percentOf duration time ≤ 100 := by
  unfold percentOf
  cases duration with
  | none => norm_num
  | some dur =>
    by_cases h : dur > 0
    · simp [h, min_le_right]
    · simp [h]

/-- The percent computation is zero without a known positive duration. -/
theorem percentOf_eq_zero (duration : Option ℚ) (time : String)
    (h : ∀ d, duration = some d → d ≤ 0) : percentOf duration time = 0 := by
  unfold percentOf
  cases duration with
  | none => rfl
  | some dur => simp [not_lt.mpr (h dur rfl)]

/-- The percent computation is non-negative whenever the parsed elapsed
time is. -/
theorem percentOf_nonneg (duration : Option ℚ) (time : String)
    (h : 0 ≤ parseTimeStr time) : 0 ≤ percentOf duration time := by
  unfold percentOf
  cases duration with
  | none => norm_num
  | some dur =>
    by_cases hd : dur > 0
    · simp only [hd, if_true]
      refine le_min ?_ (by norm_num)
      have := div_nonneg h (le_of_lt hd)
      positivity
    · simp [hd]

/-- C1 counterexample: the claim that percent always lies in `[0,100]`
fails — a progress event whose reported elapsed time is negative
(`"-1:00:00.0"`, which `parse_time_str` accepts) against a known
positive duration yields a negative percent, since the code only caps
at 100 and never clamps below 0. -/
theorem C1_percent_range_counterexample :
    (emittedProgress (fun _ => false) (some 10) 0
        [.progress "-1:00:00.0" 0 0 0]).map (·.percent) = [-36000] ∧
    ((-36000 : ℚ) < 0) := by
  constructor
  · simp +decide [emittedProgress, convertProgressOf, percentOf, parseTimeStr,
      parseF64Chars, splitOnChar, digitsVal]
    norm_num
  · norm_num

/-- C1 amended: every `ConvertProgress` notification emitted by the
event loop of `start_conversion` has percent at most 100; when the
input's duration is unknown or non-positive, percent is 0 on every
progress event of the run; and percent is non-negative whenever the
parsed elapsed time is non-negative (a negative reported elapsed time
can drive it below 0, as there is no lower clamp). -/
theorem C1_percent_range_amended :
    (∀ (cancelAt : Nat → Bool) (duration : Option ℚ) (turn : Nat)
        (events : List FfmpegEvent) (p : ConvertProgress),
      p ∈ emittedProgress cancelAt duration turn events → p.percent ≤ 100) ∧
    (∀ (cancelAt : Nat → Bool) (duration : Option ℚ) (turn : Nat)
        (events : List FfmpegEvent) (p : ConvertProgress),
      (∀ d, duration = some d → d ≤ 0) →
      p ∈ emittedProgress cancelAt duration turn events → p.percent = 0) ∧
    (∀ (duration : Option ℚ) (time : String),
      0 ≤ parseTimeStr time → 0 ≤ percentOf duration time) := by
  refine ⟨?_, ?_, ?_⟩
  · intro cancelAt duration turn events p hp
    obtain ⟨t, s, b, z, rfl⟩ := mem_emittedProgress cancelAt duration events turn p hp
    exact percentOf_le_100 duration t
  · intro cancelAt duration turn events p hdur hp
    obtain ⟨t, s, b, z, rfl⟩ := mem_emittedProgress cancelAt duration events turn p hp
    exact percentOf_eq_zero duration t hdur
  · intro duration time h
    exact percentOf_nonneg duration time h

/-- Witness for C1 amended on a concrete duration-less run. -/
theorem C1_percent_range_amended_witness :
    (convertProgressOf none "00:00:05.0" 1 1 0).percent = 0 :=
  C1_percent_range_amended.2.1 (fun _ => false) none 0
    [.progress "00:00:05.0" 1 1 0]
    (convertProgressOf none "00:00:05.0" 1 1 0)
    (by intro d hd; cases hd)
    (List.Mem.head _)

/-- Unfolds `generate_output_path` over the named candidates. -/
theorem generateOutputPath_eq (fileExists : String → Bool) (input : String)
    (presetId format : Option String) :
    generateOutputPath fileExists input presetId format =
      if ¬ fileExists (baseCandidate input presetId format) then
        baseCandidate input presetId format
      else collisionLoop fileExists (numCandidate input presetId format) 9998 2 := by
  rfl

/-- The collision loop only ever returns one of its candidates. -/
theorem collisionLoop_mem (fileExists : String → Bool) (mk : Nat → String) :
    ∀ fuel counter, ∃ n, collisionLoop fileExists mk fuel counter = mk n := by
  intro fuel
  induction fuel with
  | zero => intro counter; exact ⟨counter, rfl⟩
  | succ f ih =>
    intro counter
    simp only [collisionLoop]
    split_ifs
    · exact ⟨counter, rfl⟩
    · exact ih (counter + 1)
    · exact ⟨counter, rfl⟩

/-- C6 counterexample: the claimed precedence fails when a preset id is
given but resolves to no preset — the code then falls back to `"mp4"`
directly, ignoring the given format, instead of applying the
format-to-extension mapping (`"webm" ↦ "webm"`). -/
theorem C6_extension_precedence_counterexample :
    findPreset "nope" = none ∧
    formatToExtension "webm" = "webm" ∧
    generateOutputPath (fun _ => false) "clip.mov" (some "nope") (some "webm") =
      "clip_Convertified.mp4" := by
  refine ⟨by decide, by decide, by decide⟩

/-- C6 amended: when a preset id is given, the extension is the found
preset's declared extension, or `"mp4"` when the id resolves to no
preset — the format argument is ignored whenever a preset id is
present; with no preset id, the format-to-extension mapping applies to
the given format (unknown formats pass through unchanged); with
neither, the extension is `"mp4"`; and the path returned by
`generate_output_path` always ends in a dot followed by that chosen
extension. -/
theorem C6_extension_precedence_amended :
    (∀ pid fmt p, findPreset pid = some p →
      outputExtension (some pid) fmt = p.extension) ∧
    (∀ pid fmt, findPreset pid = none →
      outputExtension (some pid) fmt = "mp4") ∧
    (∀ fmt, outputExtension none (some fmt) = formatToExtension fmt) ∧
    outputExtension none none = "mp4" ∧
    (∀ fmt, fmt ∉ knownFormatNames → formatToExtension fmt = fmt) ∧
    (∀ fileExists input pid fmt, ∃ s,
      generateOutputPath fileExists input pid fmt =
        s ++ "." ++ outputExtension pid fmt) := by
  refine ⟨?_, ?_, ?_, rfl, ?_, ?_⟩
  · intro pid fmt p hp
    simp [outputExtension, hp]
  · intro pid fmt hp
    simp [outputExtension, hp]
  · intro fmt
    rfl
  · intro fmt h
    unfold formatToExtension
    split <;> simp_all [knownFormatNames]
  · intro fileExists input pid fmt
    rw [generateOutputPath_eq]
    have hlit : "_Convertified" ++ "." = "_Convertified." := by decide
    split_ifs with hbase
    · obtain ⟨n, hn⟩ := collisionLoop_mem fileExists (numCandidate input pid fmt) 9998 2
      rw [hn]
      refine ⟨pathJoin ((parentDir input).getD ".")
        (fileStem input ++ "_Convertified_" ++ toString n), ?_⟩
      unfold numCandidate numberedCandidate pathJoin
      split_ifs <;> simp [String.append_assoc]
    · refine ⟨pathJoin ((parentDir input).getD ".")
        (fileStem input ++ "_Convertified"), ?_⟩
      unfold baseCandidate pathJoin
      split_ifs <;> simp [String.append_assoc, hlit]

/-- Witness for C6 amended at concrete preset and format inputs. -/
theorem C6_extension_precedence_amended_witness :
    outputExtension (some "webm_vp9") none = "webm" ∧
    outputExtension (some "nope") (some "webm") = "mp4" ∧
    formatToExtension "customfmt" = "customfmt" := by
  refine ⟨?_,
    C6_extension_precedence_amended.2.1 "nope" (some "webm") (by decide),
    C6_extension_precedence_amended.2.2.2.2.1 "customfmt" (by decide)⟩
  have h := C6_extension_precedence_amended.1 "webm_vp9" none
    (getAllPresets.get ⟨2, by decide⟩) (by decide)
  rw [h]
  decide

/-- If all candidates up to the first non-existent one (at index `k`,
within the ceiling) exist, the collision loop returns candidate `k`. -/
theorem collisionLoop_first_gap (fileExists : String → Bool) (mk : Nat → String) :
    ∀ fuel counter k, counter + fuel = 10000 → 2 ≤ counter → counter ≤ k →
      k ≤ 9999 →
      (∀ j, counter ≤ j → j < k → fileExists (mk j) = true) →
      fileExists (mk k) = false →
      collisionLoop fileExists mk fuel counter = mk k := by
  intro fuel
  induction fuel with
  | zero =>
    intro counter k hsum h2 hck hk _ _
    omega
  | succ f ih =>
    intro counter k hsum h2 hck hk hall hgap
    simp only [collisionLoop]
    by_cases hfe : fileExists (mk counter) = true
    · have hne : counter ≠ k := by
        intro he
        rw [he, hgap] at hfe
        cases hfe
      have hceil : ¬ counter + 1 > 9999 := by omega
      rw [if_neg (not_not_intro hfe), if_neg hceil]
      exact ih (counter + 1) k (by omega) (by omega) (by omega) hk
        (fun j hj hjk => hall j (by omega) hjk) hgap
    · have hc : counter = k := by
        by_contra hne
        exact hfe (hall counter le_rfl (lt_of_le_of_ne hck hne))
      rw [if_pos hfe, hc]

/-- If every candidate up to the ceiling exists, the collision loop
returns the ceiling candidate 9999 regardless of its existence. -/
theorem collisionLoop_ceiling (fileExists : String → Bool) (mk : Nat → String) :
    ∀ fuel counter, counter + fuel = 10000 → 2 ≤ counter → counter ≤ 9999 →
      (∀ j, counter ≤ j → j ≤ 9999 → fileExists (mk j) = true) →
      collisionLoop fileExists mk fuel counter = mk 9999 := by
  intro fuel
  induction fuel with
  | zero =>
    intro counter hsum h2 h9999 _
    omega
  | succ f ih =>
    intro counter hsum h2 h9999 hall
    simp only [collisionLoop]
    have hfe : fileExists (mk counter) = true := hall counter le_rfl h9999
    by_cases hceil : counter + 1 > 9999
    · have hc : counter = 9999 := by omega
      rw [if_neg (not_not_intro hfe), if_pos hceil, hc]
    · rw [if_neg (not_not_intro hfe), if_neg hceil]
      exact ih (counter + 1) (by omega) (by omega) (by omega)
        (fun j hj h9 => hall j (by omega) h9)

/-- C7: `generate_output_path` returns `<stem>_Convertified.<ext>` when
that path does not exist; otherwise it probes `_2`, `_3`, …, returning
the first non-existent candidate, and once the counter reaches the 9999
ceiling it returns that ceiling candidate regardless of existence; for
input `"clip.mov"` with preset `"mp4_h264"` and no collisions the
result is `"clip_Convertified.mp4"`, and when that exists,
`"clip_Convertified_2.mp4"`. -/
theorem C7_collision_probing :
    (∀ (fileExists : String → Bool) (input : String) (pid fmt : Option String),
      fileExists (baseCandidate input pid fmt) = false →
      generateOutputPath fileExists input pid fmt = baseCandidate input pid fmt) ∧
    (∀ (fileExists : String → Bool) (input : String) (pid fmt : Option String)
        (k : Nat), 2 ≤ k → k ≤ 9999 →
      fileExists (baseCandidate input pid fmt) = true →
      (∀ j, 2 ≤ j → j < k → fileExists (numCandidate input pid fmt j) = true) →
      fileExists (numCandidate input pid fmt k) = false →
      generateOutputPath fileExists input pid fmt = numCandidate input pid fmt k) ∧
    (∀ (fileExists : String → Bool) (input : String) (pid fmt : Option String),
      fileExists (baseCandidate input pid fmt) = true →
      (∀ j, 2 ≤ j → j ≤ 9999 → fileExists (numCandidate input pid fmt j) = true) →
      generateOutputPath fileExists input pid fmt =
        numCandidate input pid fmt 9999) ∧
    generateOutputPath (fun _ => false) "clip.mov" (some "mp4_h264") none =
      "clip_Convertified.mp4" ∧
    generateOutputPath (fun s => s = "clip_Convertified.mp4") "clip.mov"
      (some "mp4_h264") none = "clip_Convertified_2.mp4" := by
  refine ⟨?_, ?_, ?_, by decide, by decide⟩
  · intro fileExists input pid fmt hbase
    rw [generateOutputPath_eq, if_pos (by simp [hbase])]
  · intro fileExists input pid fmt k h2 h9999 hbase hall hgap
    rw [generateOutputPath_eq, if_neg (not_not_intro hbase)]
    exact collisionLoop_first_gap fileExists (numCandidate input pid fmt)
      9998 2 k (by omega) le_rfl h2 h9999 (fun j hj hjk => hall j hj hjk) hgap
  · intro fileExists input pid fmt hbase hall
    rw [generateOutputPath_eq, if_neg (not_not_intro hbase)]
    exact collisionLoop_ceiling fileExists (numCandidate input pid fmt)
      9998 2 (by omega) le_rfl (by omega) (fun j hj h9 => hall j hj h9)

/-- Witness for C7 on a filesystem where every candidate exists: the
ceiling candidate is returned. -/
theorem C7_collision_probing_witness :
    generateOutputPath (fun _ => true) "clip.mov" (some "mp4_h264") none =
      numCandidate "clip.mov" (some "mp4_h264") none 9999 :=
  C7_collision_probing.2.2.1 (fun _ => true) "clip.mov" (some "mp4_h264") none
    rfl (fun _ _ _ => rfl)

/-- C8: when the input path does not exist, `start_conversion` returns
`InputNotFound` without reaching the spawn; when the input exists but
the output path's parent directory does not, it returns
`InvalidOutputPath` without reaching the spawn; in both cases the
failure is appended to the conversion log as its last entry, the log is
sealed as failed with the failure message, and the log is recorded in
the store via `add_log` before the error is returned. -/
theorem C8_validation_before_spawn :
    (∀ (fileExists : String → Bool) (clock : Nat → String) (nowMillis : Nat)
        (options : ConvertOptions) (store : LogStore) (args : List String),
      buildFfmpegArgs options = .ok args →
      fileExists options.inputPath = false →
      ∃ log, startConversionPre fileExists clock nowMillis options store =
          .failed (.inputNotFound options.inputPath) (store.addLog log) ∧
        log.success = false ∧
        log.errorMessage = some "Input file not found" ∧
        log.endedAt = some (clock 3) ∧
        log.entries.getLast? =
          some ⟨clock 2, .error, "Input file not found", some options.inputPath⟩) ∧
    (∀ (fileExists : String → Bool) (clock : Nat → String) (nowMillis : Nat)
        (options : ConvertOptions) (store : LogStore) (args : List String)
        (parent : String),
      buildFfmpegArgs options = .ok args →
      fileExists options.inputPath = true →
      parentDir options.outputPath = some parent →
      fileExists parent = false →
      ∃ log, startConversionPre fileExists clock nowMillis options store =
          .failed (.invalidOutputPath
            ("Output directory does not exist: " ++ parent))
            (store.addLog log) ∧
        log.success = false ∧
        log.errorMessage = some ("Output directory does not exist: " ++ parent) ∧
        log.endedAt = some (clock 3) ∧
        log.entries.getLast? =
          some ⟨clock 2, .error, "Output directory does not exist: " ++ parent, none⟩) := by
  constructor
  · intro fileExists clock nowMillis options store args hargs hfe
    simp only [startConversionPre, hargs]
    rw [if_pos (by simp [hfe])]
    exact ⟨_, rfl, rfl, rfl, rfl, rfl⟩
  · intro fileExists clock nowMillis options store args parent hargs hin hpar hout
    simp only [startConversionPre, hargs, hpar]
    rw [if_neg (by simp [hin]), if_pos (by simp [hout])]
    exact ⟨_, rfl, rfl, rfl, rfl, rfl⟩

/-- Witness for C8 at a concrete missing input. -/
theorem C8_validation_before_spawn_witness :
    buildFfmpegArgs missingInputOptions = .ok ["-i", "in.mp4", "-y", "out.mp4"] ∧
    (∃ log, startConversionPre (fun _ => false) (fun n => toString n) 0
        missingInputOptions (LogStore.new 50 false) =
        .failed (.inputNotFound missingInputOptions.inputPath)
          ((LogStore.new 50 false).addLog log) ∧
      log.success = false ∧
      log.errorMessage = some "Input file not found" ∧
      log.endedAt = some "3" ∧
      log.entries.getLast? =
        some ⟨"2", .error, "Input file not found", some missingInputOptions.inputPath⟩) :=
  ⟨rfl,
   C8_validation_before_spawn.1 (fun _ => false) (fun n => toString n) 0
     missingInputOptions (LogStore.new 50 false) ["-i", "in.mp4", "-y", "out.mp4"]
     rfl rfl⟩

/-- Trimming, appending one element and trimming again is the same as
appending and trimming once. -/
theorem trimFront_append_singleton (m : Nat) (l : List ConversionLog)
    (x : ConversionLog) :
    trimFront m (trimFront m l ++ [x]) = trimFront m (l ++ [x]) := by
  unfold trimFront
  rcases le_or_lt l.length m with h | h
  · rw [Nat.sub_eq_zero_of_le h, List.drop_zero]
  · have hd : (l.drop (l.length - m)).length = m := by
      rw [List.length_drop]
      omega
    rcases Nat.eq_zero_or_pos m with hm | hm
    · subst hm
      rw [List.drop_eq_nil_of_le (by simp), List.drop_eq_nil_of_le (by simp)]
    · have h1 : ((l.drop (l.length - m) ++ [x]).length - m) = 1 := by
        rw [List.length_append, hd]
        simp
      have h2 : ((l ++ [x]).length - m) = l.length - m + 1 := by
        rw [List.length_append]
        simp
        omega
      rw [h1, h2, List.drop_append_of_le_length (by rw [hd]; omega),
        List.drop_append_of_le_length (by omega),
        List.drop_drop]

/-- Folding `add_log` preserves the configured capacity. -/
theorem foldAddLog_maxLogs (ls : List ConversionLog) :
    ∀ store : LogStore, (ls.foldl LogStore.addLog store).maxLogs = store.maxLogs := by
  induction ls with
  | nil => intro store; rfl
  | cons l ls ih => intro store; rw [List.foldl_cons, ih]; rfl

/-- Folding `add_log` over a store within capacity keeps exactly the
trimmed tail of all logs ever recorded, in insertion order. -/
theorem foldAddLog_logs (ls : List ConversionLog) (store : LogStore)
    (hlen : store.logs.length ≤ store.maxLogs) :
    (ls.foldl LogStore.addLog store).logs =
      trimFront store.maxLogs (store.logs ++ ls) := by
  induction ls using List.reverseRecOn with
  | nil =>
    rw [List.foldl_nil, List.append_nil]
    unfold trimFront
    rw [Nat.sub_eq_zero_of_le hlen, List.drop_zero]
  | append_singleton ls x ih =>
    rw [List.foldl_append, List.foldl_cons, List.foldl_nil]
    show trimFront (ls.foldl LogStore.addLog store).maxLogs _ = _
    rw [foldAddLog_maxLogs, ih, trimFront_append_singleton, List.append_assoc]

/-- Folding `add_log` over a store with a configured durable file
appends every rendered block, in order. -/
theorem foldAddLog_fileContents (ls : List ConversionLog) :
    ∀ (store : LogStore) (s : String), store.fileContents = some s →
      (ls.foldl LogStore.addLog store).fileContents =
        some (s ++ renderedBlocks ls) := by
  induction ls with
  | nil =>
    intro store s h
    rw [List.foldl_nil, h, renderedBlocks, String.append_empty]
  | cons l ls ih =>
    intro store s h
    rw [List.foldl_cons,
      ih (store.addLog l) (s ++ formatLogForFile l) (by simp [LogStore.addLog, h]),
      renderedBlocks, String.append_assoc]

/-- C9: after recording `N+1` logs into a fresh `LogStore` of capacity
`N` with a configured log directory, `get_logs` returns exactly the `N`
most recent logs in insertion order (the oldest is evicted), while the
evicted log's rendered block is still present (as a leading block) in
the durable file. -/
theorem C9_capacity_eviction (n : Nat) (first : ConversionLog)
    (rest : List ConversionLog) (hlen : rest.length = n) :
    ((first :: rest).foldl LogStore.addLog (LogStore.new n true)).getLogs = rest ∧
    ∃ s, ((first :: rest).foldl LogStore.addLog (LogStore.new n true)).fileContents =
      some (formatLogForFile first ++ s) := by
  constructor
  · rw [LogStore.getLogs, foldAddLog_logs _ _ (by simp [LogStore.new])]
    show trimFront n ([] ++ (first :: rest)) = rest
    rw [List.nil_append]
    unfold trimFront
    have h1 : (first :: rest).length - n = 1 := by
      rw [List.length_cons, hlen]
      omega
    rw [h1, List.drop_one, List.tail_cons]
  · refine ⟨renderedBlocks rest, ?_⟩
    rw [foldAddLog_fileContents _ _ "" rfl, renderedBlocks, String.empty_append]

/-- Witness for C9 with capacity 1 and two concrete logs. -/
theorem C9_capacity_eviction_witness :
    (([ConversionLog.new "a.mp4" "b.mp4" none none "cmd0" 0 "t0",
       ConversionLog.new "c.mp4" "d.mp4" none none "cmd1" 1 "t1"]).foldl
        LogStore.addLog (LogStore.new 1 true)).getLogs =
      [ConversionLog.new "c.mp4" "d.mp4" none none "cmd1" 1 "t1"] ∧
    ∃ s, (([ConversionLog.new "a.mp4" "b.mp4" none none "cmd0" 0 "t0",
       ConversionLog.new "c.mp4" "d.mp4" none none "cmd1" 1 "t1"]).foldl
        LogStore.addLog (LogStore.new 1 true)).fileContents =
      some (formatLogForFile (ConversionLog.new "a.mp4" "b.mp4" none none "cmd0" 0 "t0") ++ s) :=
  C9_capacity_eviction 1 (ConversionLog.new "a.mp4" "b.mp4" none none "cmd0" 0 "t0")
    [ConversionLog.new "c.mp4" "d.mp4" none none "cmd1" 1 "t1"] rfl

/-- C2 counterexample: `add_entry` on a sealed `ConversionLog` is not a
no-op — the entries sequence changes. -/
theorem C2_sealed_append_counterexample :
    sealedSampleLog.sealed ∧
    (sealedSampleLog.addEntry "00:00:06.000" .info "late entry" none).entries ≠
      sealedSampleLog.entries := by
  refine ⟨by decide, by decide⟩

/-- C2 amended: `add_entry` has no sealed-state guard — on a sealed log
it appends its entry exactly as on an open one — and each call to
`finish` (first or repeated) overwrites `ended_at`, `success` and
`error_message` with its arguments. -/
theorem C2_sealed_append_amended (log : ConversionLog) (_sealed : log.sealed)
    (ts ts' : String) (lvl : AppLogLevel) (msg : String) (ctx : Option String)
    (success : Bool) (errMsg : Option String) :
    (log.addEntry ts lvl msg ctx).entries =
      log.entries ++ [{ timestamp := ts, level := lvl, message := msg, context := ctx }] ∧
    (log.finish ts' success errMsg).endedAt = some ts' ∧
    (log.finish ts' success errMsg).success = success ∧
    (log.finish ts' success errMsg).errorMessage = errMsg :=
  ⟨rfl, rfl, rfl, rfl⟩

/-- Witness for C2 amended at the concrete sealed log. -/
theorem C2_sealed_append_amended_witness :
    sealedSampleLog.sealed ∧
    ((sealedSampleLog.addEntry "t" .info "m" none).entries =
      sealedSampleLog.entries ++
        [{ timestamp := "t", level := .info, message := "m", context := none }] ∧
    (sealedSampleLog.finish "t2" false (some "e")).endedAt = some "t2" ∧
    (sealedSampleLog.finish "t2" false (some "e")).success = false ∧
    (sealedSampleLog.finish "t2" false (some "e")).errorMessage = some "e") :=
  ⟨by decide,
   C2_sealed_append_amended sealedSampleLog (by decide) "t" "t2" .info "m" none
     false (some "e")⟩

/-! ## C3: the video-codec override -/

/-- Every preset of the static catalog is flag-clean. -/
theorem catalog_clean : ∀ p ∈ getAllPresets, presetFlagClean p := by decide

/-- Removal leaves a list without the flag unchanged. -/
theorem removeFirstPair_of_not_mem (flag : String) (l : List String)
    (h : flag ∉ l) : removeFirstPair flag l = l := by
  induction l with
  | nil => rfl
  | cons a rest ih =>
    rw [removeFirstPair, if_neg (by simp_all [eq_comm]), ih (by simp_all)]

/-- Removal takes out exactly the first flag+value pair. -/
theorem removeFirstPair_append_pair (flag v : String) (pre post : List String)
    (h : flag ∉ pre) :
    removeFirstPair flag (pre ++ flag :: v :: post) = pre ++ post := by
  induction pre with
  | nil => simp [removeFirstPair]
  | cons a rest ih =>
    rw [List.cons_append, removeFirstPair, if_neg (by simp_all [eq_comm]),
      ih (by simp_all), List.cons_append]

/-- An element different from the flag and from the optional value is
not in the contributed flag list. -/
theorem not_mem_optFlagList (x flag : String) (o : Option String)
    (hx : x ≠ flag) (ho : o ≠ some x) : x ∉ optFlagList flag o := by
  rcases h : o with _ | v
  · simp [optFlagList]
  · simp only [optFlagList]
    intro hmem
    rcases List.mem_cons.mp hmem with h1 | h1
    · exact hx h1
    · rw [h] at ho
      simp at h1
      exact ho (by rw [h1])

/-- Every stream-exclusion flag is one of the three literals. -/
theorem streamFlags_subset (sel : StreamSelection) :
    ∀ x ∈ streamFlags sel, x = "-vn" ∨ x = "-an" ∨ x = "-sn" := by
  intro x hx
  unfold streamFlags at hx
  split_ifs at hx <;> simp_all <;> tauto

/-- Decomposes `Preset::build_args` around a declared video codec. -/
theorem buildArgs_decomp (p : Preset) (pv : String)
    (hpv : p.videoCodec = some pv) :
    p.buildArgs = optFlagList "-f" p.format ++
      "-c:v" :: pv :: (optFlagList "-c:a" p.audioCodec ++ p.extraArgs) := by
  unfold Preset.buildArgs optFlagList
  rw [hpv]
  rcases hf : p.format with _ | f <;> rcases ha : p.audioCodec with _ | a <;> simp

/-- The advanced-options stage around a given video-codec override, the
format and extra-args contributions folded into lists. -/
theorem applyAdvanced_video (adv : AdvancedOptions) (av : String)
    (hav : adv.videoCodec = some av) (L : List String) :
    applyAdvanced adv L =
      audioStage adv.audioCodec
        (removeFirstPair "-c:v" (L ++ optFlagList "-f" adv.format) ++
          ["-c:v", av]) ++ extraAdvList adv := by
  unfold applyAdvanced
  rw [hav]
  rcases hf : adv.format with _ | f <;> rcases ha : adv.audioCodec with _ | a <;>
    rcases he : adv.extraArgs with _ | e <;>
    simp [optFlagList, extraAdvList, audioStage, hf, ha, he]

/-- In a list with a unique occurrence of `x` followed by `v`, every
split at `x` continues with `v`. -/
theorem head_of_unique_split (x v : String) (A B : List String)
    (hA : x ∉ A) (hB : x ∉ B) (hxv : x ≠ v) :
    ∀ l1 l2, A ++ x :: v :: B = l1 ++ x :: l2 → l2.head? = some v := by
  induction A with
  | nil =>
    intro l1 l2 h
    cases l1 with
    | nil =>
      simp only [List.nil_append] at h
      rw [← (List.cons.injEq _ _ _ _).mp h |>.2]
      rfl
    | cons b l1' =>
      simp only [List.nil_append, List.cons_append] at h
      obtain ⟨hxb, htail⟩ := (List.cons.injEq _ _ _ _).mp h
      have hx_mem : x ∈ v :: B := by
        rw [htail]
        simp
      rcases List.mem_cons.mp hx_mem with h1 | h1
      · exact absurd h1 hxv
      · exact absurd h1 hB
  | cons a A' ih =>
    intro l1 l2 h
    cases l1 with
    | nil =>
      simp only [List.cons_append, List.nil_append] at h
      obtain ⟨hax, -⟩ := (List.cons.injEq _ _ _ _).mp h
      exact absurd (List.mem_cons.mpr (Or.inl hax.symm)) hA
    | cons b l1' =>
      simp only [List.cons_append] at h
      obtain ⟨-, htail⟩ := (List.cons.injEq _ _ _ _).mp h
      exact ih (fun hm => hA (List.mem_cons.mpr (Or.inr hm))) l1' l2 htail

/-- Heart of the override property: with flag-clean segments, the
advanced-options stage leaves exactly one `-c:v`, followed by the
override value. -/
theorem override_decomp (base F A XP G E T : List String) (pv av : String)
    (audio : Option String)
    (hbase : "-c:v" ∉ base) (hF : "-c:v" ∉ F) (hA : "-c:v" ∉ A)
    (hXP : "-c:v" ∉ XP) (hG : "-c:v" ∉ G) (hE : "-c:v" ∉ E) (hT : "-c:v" ∉ T)
    (hbase_a : "-c:a" ∉ base) (hF_a : "-c:a" ∉ F) (hXP_a : "-c:a" ∉ XP)
    (hG_a : "-c:a" ∉ G)
    (hav_a : av ≠ "-c:a")
    (hac : audio ≠ some "-c:v")
    (hAshape : A = [] ∨ ∃ pa, A = ["-c:a", pa]) :
    ∃ X Y, (audioStage audio
        (removeFirstPair "-c:v" ((base ++ (F ++ "-c:v" :: pv :: (A ++ XP))) ++ G) ++
          ["-c:v", av]) ++ E) ++ T =
      X ++ "-c:v" :: av :: Y ∧ "-c:v" ∉ X ∧ "-c:v" ∉ Y := by
  have hvideo : removeFirstPair "-c:v" ((base ++ (F ++ "-c:v" :: pv :: (A ++ XP))) ++ G) =
      (base ++ F) ++ (A ++ XP ++ G) := by
    have h1 : (base ++ (F ++ "-c:v" :: pv :: (A ++ XP))) ++ G =
        (base ++ F) ++ "-c:v" :: pv :: (A ++ XP ++ G) := by
      simp [List.append_assoc]
    rw [h1, removeFirstPair_append_pair _ _ _ _
      (by simp [List.mem_append, hbase, hF])]
  rcases haud : audio with _ | ac
  · simp only [audioStage]
    refine ⟨(base ++ F) ++ (A ++ XP ++ G), E ++ T, ?_, ?_, ?_⟩
    · rw [hvideo]
      simp [List.append_assoc]
    · simp [List.mem_append, hbase, hF, hA, hXP, hG]
    · simp [List.mem_append, hE, hT]
  · have hac' : ac ≠ "-c:v" := by
      intro he
      apply hac
      rw [haud, he]
    simp only [audioStage]
    rw [hvideo]
    rcases hAshape with hA0 | ⟨pa, hApa⟩
    · subst hA0
      rw [removeFirstPair_of_not_mem _ _
        (by simp [List.mem_append, hbase_a, hF_a, hXP_a, hG_a, Ne.symm hav_a])]
      refine ⟨(base ++ F) ++ ([] ++ XP ++ G), "-c:a" :: ac :: (E ++ T), ?_, ?_, ?_⟩
      · simp [List.append_assoc]
      · simp [List.mem_append, hbase, hF, hXP, hG]
      · simp [List.mem_append, hE, hT, hac', Ne.symm hac']
    · subst hApa
      have h2 : ((base ++ F) ++ (["-c:a", pa] ++ XP ++ G)) ++ ["-c:v", av] =
          (base ++ F) ++ "-c:a" :: pa :: (XP ++ G ++ ["-c:v", av]) := by
        simp [List.append_assoc]
      rw [h2, removeFirstPair_append_pair _ _ _ _
        (by simp [List.mem_append, hbase_a, hF_a])]
      refine ⟨(base ++ F) ++ (XP ++ G), "-c:a" :: ac :: (E ++ T), ?_, ?_, ?_⟩
      · simp [List.append_assoc]
      · simp [List.mem_append, hbase, hF, hXP, hG]
      · simp [List.mem_append, hE, hT, hac', Ne.symm hac']

/-- C3 amended: when the preset declares a video codec and the advanced
options override it, the built argument list contains `-c:v` exactly
once, immediately followed by the override value — provided none of the
caller-supplied strings (input path, output path, advanced format
value, advanced audio-codec value, extra-argument tokens, and the
override value itself) is one of the codec flag tokens `-c:v`/`-c:a`
that the removal logic keys on. -/
theorem C3_video_codec_override_amended
    (options : ConvertOptions) (pid : String) (p : Preset) (pv av : String)
    (adv : AdvancedOptions)
    (hpid : options.presetId = some pid)
    (hfind : findPreset pid = some p)
    (hpv : p.videoCodec = some pv)
    (hadv : options.advanced = some adv)
    (hav : adv.videoCodec = some av)
    (hin_v : options.inputPath ≠ "-c:v")
    (hin_a : options.inputPath ≠ "-c:a")
    (hav_v : av ≠ "-c:v") (hav_a : av ≠ "-c:a")
    (hfmt_v : adv.format ≠ some "-c:v") (hfmt_a : adv.format ≠ some "-c:a")
    (hacv : adv.audioCodec ≠ some "-c:v")
    (hex : ∀ e, adv.extraArgs = some e → "-c:v" ∉ parseExtraArgs e)
    (hout : options.outputPath ≠ "-c:v") :
    ∃ args, buildFfmpegArgs options = .ok args ∧
      args.count "-c:v" = 1 ∧
      ∀ l1 l2, args = l1 ++ "-c:v" :: l2 → l2.head? = some av := by
  have hmem : p ∈ getAllPresets := List.mem_of_find?_eq_some hfind
  obtain ⟨hcf_v, hcf_a, hca_v, hca_a, hce_v, hce_a⟩ := catalog_clean p hmem
  have hbase_cv : "-c:v" ∉ ["-i", options.inputPath] ++
      streamFlags (options.streamSelection.getD StreamSelection.default) := by
    intro hm
    rcases List.mem_append.mp hm with h | h
    · rcases List.mem_cons.mp h with h | h
      · exact absurd h (by decide)
      · rcases List.mem_cons.mp h with h | h
        · exact hin_v h.symm
        · simp at h
    · rcases streamFlags_subset _ _ h with h | h | h <;> exact absurd h (by decide)
  have hbase_ca : "-c:a" ∉ ["-i", options.inputPath] ++
      streamFlags (options.streamSelection.getD StreamSelection.default) := by
    intro hm
    rcases List.mem_append.mp hm with h | h
    · rcases List.mem_cons.mp h with h | h
      · exact absurd h (by decide)
      · rcases List.mem_cons.mp h with h | h
        · exact hin_a h.symm
        · simp at h
    · rcases streamFlags_subset _ _ h with h | h | h <;> exact absurd h (by decide)
  have hE_cv : "-c:v" ∉ extraAdvList adv := by
    unfold extraAdvList
    rcases he : adv.extraArgs with _ | e
    · simp
    · exact hex e he
  have hT_cv : "-c:v" ∉ ["-y", options.outputPath] := by
    intro hm
    rcases List.mem_cons.mp hm with h | h
    · exact absurd h (by decide)
    · rcases List.mem_cons.mp h with h | h
      · exact hout h.symm
      · simp at h
  obtain ⟨X, Y, hXY, hX, hY⟩ := override_decomp
    (["-i", options.inputPath] ++
      streamFlags (options.streamSelection.getD StreamSelection.default))
    (optFlagList "-f" p.format) (optFlagList "-c:a" p.audioCodec)
    p.extraArgs (optFlagList "-f" adv.format) (extraAdvList adv)
    ["-y", options.outputPath] pv av adv.audioCodec
    hbase_cv
    (not_mem_optFlagList _ _ _ (by decide) hcf_v)
    (not_mem_optFlagList _ _ _ (by decide) hca_v)
    hce_v
    (not_mem_optFlagList _ _ _ (by decide) hfmt_v)
    hE_cv hT_cv
    hbase_ca
    (not_mem_optFlagList _ _ _ (by decide) hcf_a)
    hce_a
    (not_mem_optFlagList _ _ _ (by decide) hfmt_a)
    hav_a hacv
    (by
      rcases hpa : p.audioCodec with _ | pa
      · exact Or.inl (by simp [optFlagList, hpa])
      · exact Or.inr ⟨pa, by simp [optFlagList, hpa]⟩)
  refine ⟨X ++ "-c:v" :: av :: Y, ?_, ?_, ?_⟩
  · simp only [buildFfmpegArgs, hpid, hfind, afterPresetArgs, hadv]
    rw [applyAdvanced_video adv av hav, buildArgs_decomp p pv hpv, hXY]
  · have h1 : X.count "-c:v" = 0 := List.count_eq_zero.mpr hX
    have h2 : Y.count "-c:v" = 0 := List.count_eq_zero.mpr hY
    simp [List.count_append, List.count_cons, h1, h2, Ne.symm hav_v]
  · exact head_of_unique_split "-c:v" av X Y hX hY (Ne.symm hav_v)

/-- C3 counterexample: with an input path equal to the flag token
`-c:v`, the preset `mp4_h264` (video codec `libx264`) and an advanced
override `libx265`, the removal in `build_ffmpeg_args` removes the
input path and the preset's `-f` flag instead of the preset codec pair,
so the final list contains `-c:v` twice and still carries the preset's
codec value `libx264` right after a `-c:v`. -/
theorem C3_video_codec_override_counterexample :
    (findPreset "mp4_h264").map (fun q => q.videoCodec) = some (some "libx264") ∧
    flagNamedInputOptions.advanced = some overrideAdvanced ∧
    overrideAdvanced.videoCodec = some "libx265" ∧
    buildFfmpegArgs flagNamedInputOptions =
      .ok ["-i", "mp4", "-c:v", "libx264", "-c:a", "aac", "-preset", "medium",
        "-crf", "23", "-c:v", "libx265", "-y", "out.mp4"] ∧
    (["-i", "mp4", "-c:v", "libx264", "-c:a", "aac", "-preset", "medium",
      "-crf", "23", "-c:v", "libx265", "-y", "out.mp4"] : List String).count
        "-c:v" = 2 :=
  ⟨by decide, rfl, rfl, rfl, by decide⟩

/-- Witness for C3 amended at a well-behaved concrete request. -/
theorem C3_video_codec_override_amended_witness :
    ∃ args, buildFfmpegArgs cleanOverrideOptions = .ok args ∧
      args.count "-c:v" = 1 ∧
      ∀ l1 l2, args = l1 ++ "-c:v" :: l2 → l2.head? = some "libx265" :=
  C3_video_codec_override_amended cleanOverrideOptions "mp4_h264"
    (getAllPresets.get ⟨0, by decide⟩) "libx264" "libx265" overrideAdvanced
    rfl (by decide) rfl rfl rfl (by decide) (by decide) (by decide) (by decide)
    (by decide) (by decide) (by decide)
    (fun e he => by cases he) (by decide)

end Convertify
